import Mathlib

/-!
Verification of the combined-metrics endpoint
(`src/pages/api/websites/[websiteId]/getWebsiteMetrics.ts`, `GET`).

The definitions below are a shallow embedding of the handler's core logic:
the stats differencer, the language normalizer, the metrics-fetch dispatch,
the display formatter and the filter builder.  JavaScript objects used as
string-keyed maps are embedded as insertion-ordered association lists
(`List (String × _)`); JavaScript numbers that hold counts are embedded as
`Int`; external collaborators (the query layer, the request-filter parser,
the name tables from `lib/constants` and the country JSON) are parameters
of the definitions, since only their shapes matter to the logic verified
here.
-/

set_option autoImplicit false
set_option linter.unusedVariables false

namespace Umami

/-- First-match lookup in an insertion-ordered association list, embedding
`obj[k]` property access on a JavaScript object with unique keys. -/
def lookupKey {α : Type} (k : String) : List (String × α) → Option α
  | [] => none
  | e :: es => if e.1 = k then some e.2 else lookupKey k es

/-! ## Stats differencer (`stats`, source lines 530–536) -/

/-- A raw cell of a stat row.  `num n` stands for any JavaScript value whose
`Number(...)` coercion is the number `n` (counts are integral, so `Int`);
`nonNumeric` stands for any value whose `Number(...)` coercion is `NaN`. -/
inductive StatVal where
  | num (n : Int)
  | nonNumeric
  deriving DecidableEq, Repr

/-- A stat row, i.e. `metrics[0]` / `prevPeriod[0]`: a JavaScript object
mapping stat keys to raw values, embedded as an ordered association list. -/
abbrev StatRow := List (String × StatVal)

/-- One entry of the merged comparison: `{ value: ..., prev: ... }`. -/
structure StatComp where
  value : Int
  prev : Int
  deriving DecidableEq, Repr

/-- Embeds `Number(row[key]) || 0`: an absent key (`none`) coerces through
`Number(undefined) = NaN` to `0`, a non-numeric value likewise, a numeric
value is kept (`0 || 0` is still `0`, so `|| 0` is the identity on
numbers other than `NaN`). -/
def toNumberOrZero : Option StatVal → Int
  | some (StatVal.num n) => n
  | some StatVal.nonNumeric => 0
  | none => 0

/-- The stats differencer:
`Object.keys(metrics[0]).reduce((obj, key) => { obj[key] = { value: Number(metrics[0][key]) || 0, prev: Number(prevPeriod[0][key]) || 0 }; return obj; }, {})`.
The reduce visits the keys of the current row in order and builds the
result object in that same order. -/
def diff (current previous : StatRow) : List (String × StatComp) :=
  (current.map Prod.fst).map fun k =>
    (k, { value := toNumberOrZero (lookupKey k current)
          prev := toNumberOrZero (lookupKey k previous) })

/-! ## The fetch boundary around the two `getWebsiteStats` calls
(source lines 514–536) -/

/-- What `await getWebsiteStats(...).catch(() => badRequest())` evaluates
to: on success the resolved row list, on rejection the `badRequest()`
response object itself, which becomes the value of `metrics` /
`prevPeriod` (the `.catch` handler returns into the expression — it does
not return from `GET`). -/
inductive FetchResult where
  | rows (rs : List StatRow)
  | badRequestResponse
  deriving DecidableEq, Repr

/-- Embeds the `.catch(() => badRequest())` combinator applied to the
query promise. -/
def catchToBadRequest (r : Except Unit (List StatRow)) : FetchResult :=
  match r with
  | Except.ok rs => FetchResult.rows rs
  | Except.error _ => FetchResult.badRequestResponse

/-- `v[0]` on the value held by `metrics` / `prevPeriod`: `undefined`
(`none`) when the value is the bad-request response object (no index `0`)
or an empty row list. -/
def firstRow : FetchResult → Option StatRow
  | FetchResult.rows (r :: _) => some r
  | FetchResult.rows [] => none
  | FetchResult.badRequestResponse => none

/-- Outcome of evaluating the stats-merging expression: either a value or
a thrown `TypeError`. -/
inductive EvalOutcome (α : Type) where
  | ok (a : α)
  | typeError
  deriving DecidableEq, Repr

/-- Evaluation of the stats-merging statement on the values of `metrics`
and `prevPeriod`:
* `Object.keys(metrics[0])` throws a `TypeError` when `metrics[0]` is
  `undefined` (empty row list or a response object in `metrics`);
* otherwise the reduce runs; each iteration reads
  `prevPeriod[0][key]`, which throws a `TypeError` when `prevPeriod[0]`
  is `undefined` — unless the current row has no keys, in which case the
  reduce body never runs and the result is the empty object. -/
def statsStep (metricsF prevF : FetchResult) : EvalOutcome (List (String × StatComp)) :=
  match firstRow metricsF with
  | none => EvalOutcome.typeError
  | some r0 =>
    match firstRow prevF with
    | some p0 => EvalOutcome.ok (diff r0 p0)
    | none => if r0.isEmpty then EvalOutcome.ok [] else EvalOutcome.typeError

/-! ## Language normalizer (inside `getMetricsData`, source lines 556–567) -/

/-- A `(dimension value, count)` pair as returned by the metric queries:
`{ x: string, y: number }`. -/
structure DataPoint where
  x : String
  y : Int
  deriving DecidableEq, Repr

/-- The bucket key `String(x).toLowerCase().split('-')[0]`: lower-case the
string and keep the characters before the first `'-'` (the first component
of the split is exactly the maximal dash-free prefix). -/
def bucketKey (x : String) : String :=
  String.mk ((x.data.map Char.toLower).takeWhile fun c => c != '-')

/-- One iteration of the accumulation loop on the `combined` object:
if an entry with this bucket key exists, add `y` to it in place
(`combined[key].y += y`, position preserved); otherwise append a new entry
(`combined[key] = { x: key, y }`). -/
def addPoint : List DataPoint → String → Int → List DataPoint
  | [], key, y => [{ x := key, y := y }]
  | q :: qs, key, y =>
    if q.x = key then { x := key, y := q.y + y } :: qs else q :: addPoint qs key y

/-- The language normalizer: fold the input points into the `combined`
object and return `Object.values(combined)` in key-insertion order. -/
def normalizeLang (data : List DataPoint) : List DataPoint :=
  data.foldl (fun c p => addPoint c (bucketKey p.x) p.y) []

/-- The list of distinct keys in order of first occurrence, starting from
the already-seen keys `seen`; used only to state what order
`normalizeLang` emits its buckets in. -/
def firstSeenFrom (seen : List String) : List String → List String
  | [] => seen
  | k :: ks =>
    if k ∈ seen then firstSeenFrom seen ks else firstSeenFrom (seen ++ [k]) ks

/-- The list of distinct keys in order of first occurrence. -/
def firstSeen (ks : List String) : List String :=
  firstSeenFrom [] ks

/-! ## Metrics-fetch dispatch (`getMetricsData`, source lines 548–581) -/

/-- An underlying query invocation issued by `getMetricsData`. -/
inductive QueryCall where
  | sessionQuery (dim : String)
  | pageviewQuery (dim : String)
  deriving DecidableEq, Repr

/-- The dispatch of `getMetricsData`, with its external collaborators as
parameters: `sessionCols`/`eventCols` are `SESSION_COLUMNS`/`EVENT_COLUMNS`
from `lib/constants`, and `sessionData`/`pageviewData` are what
`getSessionMetrics`/`getPageviewMetrics` would resolve to.  Returns the
data together with the list of query calls issued:
* a session-family dimension issues the session query, and `"language"`
  additionally runs the normalizer on the result;
* an event-family dimension issues the pageview query;
* anything else issues no query and returns `[]`. -/
def getMetricsData (sessionCols eventCols : List String)
    (sessionData pageviewData : List DataPoint) (types : String) :
    List DataPoint × List QueryCall :=
  if sessionCols.contains types then
    (if types = "language" then normalizeLang sessionData else sessionData,
     [QueryCall.sessionQuery types])
  else if eventCols.contains types then
    (pageviewData, [QueryCall.pageviewQuery types])
  else
    ([], [])

/-! ## Display formatter (`formattedData`, source lines 587–630) -/

/-- A formatted breakdown item `{ name, icon, x, y }`. -/
structure FormattedItem where
  name : String
  icon : String
  x : String
  y : Int
  deriving DecidableEq, Repr

/-- A static code → display-name mapping (`OS_NAMES`, `BROWSERS`, the
country-name JSON), embedded as an association list. -/
abbrev NameTable := List (String × String)

/-- The three name tables the formatter can select from; their contents
live outside the handler (`lib/constants`, `public/intl/country`), so they
are parameters of the embedding. -/
structure NameTables where
  os : NameTable
  browser : NameTable
  country : NameTable

/-- The `switch (type)` selecting `source`: `os`/`browser`/`country` pick
their table, any other dimension leaves `source` undefined. -/
def sourceFor (tables : NameTables) (ty : String) : Option NameTable :=
  if ty = "os" then some tables.os
  else if ty = "browser" then some tables.browser
  else if ty = "country" then some tables.country
  else none

/-- The slug `item.x.toLowerCase().replace(/ /g, '-')`: lower-case the
string and replace every space with a dash (character-wise, since both
pattern and replacement are single characters). -/
def slug (x : String) : String :=
  String.mk ((x.data.map Char.toLower).map fun c => if c = ' ' then '-' else c)

/-- The inner `switch (type)` building `icon` from the slug. -/
def iconFor (ty itemName : String) : String :=
  if ty = "os" then "//umami.guole.fun/images/os/" ++ itemName ++ ".png"
  else if ty = "browser" then "//umami.guole.fun/images/browser/" ++ itemName ++ ".png"
  else if ty = "country" then "//umami.guole.fun/images/country/" ++ itemName ++ ".png"
  else if ty = "device" then "//umami.guole.fun/images/device/" ++ itemName ++ ".png"
  else ""

/-- `source[item.x] || item.x`: the table entry when present and truthy
(a present empty-string entry is falsy and also falls back to the raw
code). -/
def nameOr (source : NameTable) (x : String) : String :=
  match lookupKey x source with
  | some s => if s = "" then x else s
  | none => x

/-- The display formatter: when a table was selected, map each point to
`{ name: source[item.x] || item.x, icon, x: item.x, y: item.y }`;
otherwise return `[]`. -/
def formattedData (tables : NameTables) (data : List DataPoint) (ty : String) :
    List FormattedItem :=
  match sourceFor tables ty with
  | some source =>
    data.map fun item =>
      { name := nameOr source item.x
        icon := iconFor ty (slug item.x)
        x := item.x
        y := item.y }
  | none => []

/-! ## Filter builder (source lines 504–511 and 538–545) -/

/-- A filter entry `{ name, column, operator, value }` (the shape produced
by `getRequestFilters` and by the synthetic search filter). -/
structure FilterDef where
  name : String
  column : String
  operator : String
  value : String
  deriving DecidableEq, Repr

/-- The `OPERATORS.contains` token from `lib/constants` (not under `src/`;
its concrete spelling is irrelevant here and kept symbolic). -/
def opContains : String := "contains"

/-- `FILTER_COLUMNS[type] || type`: the physical column for a logical
dimension name, defaulting to the dimension name itself when unmapped
(or mapped to a falsy empty string). -/
def resolvedColumn (filterColumns : List (String × String)) (ty : String) : String :=
  match lookupKey ty filterColumns with
  | some c => if c = "" then ty else c
  | none => ty

/-- The synthetic search filter
`{ name: type, column, operator: OPERATORS.contains, value: search }`. -/
def searchFilter (filterColumns : List (String × String)) (ty s : String) : FilterDef :=
  { name := ty
    column := resolvedColumn filterColumns ty
    operator := opContains
    value := s }

/-- `obj[k] = v` on an insertion-ordered object: replace the slot of an
existing key in place, otherwise append the new key at the end. -/
def setEntry : List (String × FilterDef) → String → FilterDef → List (String × FilterDef)
  | [], k, v => [(k, v)]
  | e :: es, k, v => if e.1 = k then (k, v) :: es else e :: setEntry es k v

/-- The breakdown filter set `filters_search`: a copy of the request
filters, plus — when `search` is supplied and truthy (a present empty
string is falsy) — the synthetic contains-filter stored under the
requested dimension via `filters_search[type] = ...`. -/
def buildFiltersSearch (base : List (String × FilterDef))
    (filterColumns : List (String × String)) (ty : String) (search : Option String) :
    List (String × FilterDef) :=
  match search with
  | some s => if s = "" then base else setEntry base ty (searchFilter filterColumns ty s)
  | none => base

/-- The two filter sets a request works with: `primary` is spread into the
two `getWebsiteStats` calls, `breakdown` is passed to the metric queries. -/
structure RequestPlan where
  primary : List (String × FilterDef)
  breakdown : List (String × FilterDef)
  deriving DecidableEq, Repr

/-- Build both filter sets from the parsed request filters: the primary
set is `filters` untouched, the breakdown set is `filters_search`. -/
def buildPlan (base : List (String × FilterDef))
    (filterColumns : List (String × String)) (ty : String) (search : Option String) :
    RequestPlan :=
  { primary := base
    breakdown := buildFiltersSearch base filterColumns ty search }

/-! ## Helper lemmas -/

theorem lookupKey_map_mk {β : Type} (f : String → β) :
    ∀ (ks : List String) (k : String), k ∈ ks →
      lookupKey k (ks.map fun k' => (k', f k')) = some (f k) := by
  intro ks
  induction ks with
  | nil => intro k hk; cases hk
  | cons k0 ks ih =>
    intro k hk
    by_cases h : k0 = k
    · subst h
      simp [lookupKey]
    · have hk' : k ∈ ks := by
        cases hk with
        | head => exact absurd rfl h
        | tail _ h' => exact h'
      simpa [lookupKey, h] using ih k hk'

theorem lookupKey_mem {α : Type} :
    ∀ (m : List (String × α)) (k : String) (v : α), lookupKey k m = some v →
      ∃ e ∈ m, e.1 = k ∧ e.2 = v := by
  intro m
  induction m with
  | nil => intro k v h; cases h
  | cons e es ih =>
    intro k v h
    by_cases he : e.1 = k
    · refine ⟨e, List.mem_cons_self e es, he, ?_⟩
      have : some e.2 = some v := by simpa [lookupKey, he] using h
      exact Option.some.inj this
    · have h' : lookupKey k es = some v := by simpa [lookupKey, he] using h
      obtain ⟨e', he', hk, hv⟩ := ih k v h'
      exact ⟨e', List.mem_cons_of_mem e he', hk, hv⟩

/-! ## C1: the stats differencer -/

/-- C1 (counterexample): the claim additionally asserts that every output
`value`/`prev` is non-negative, but the differencer passes negative
numeric inputs through unchanged: on the key-set-sharing pair
`current = previous = { visits: -1 }` the produced comparison holds the
negative number `-1`. -/
theorem diff_negative_passthrough :
    diff [("visits", StatVal.num (-1))] [("visits", StatVal.num (-1))]
      = [("visits", { value := -1, prev := -1 })] ∧ ¬ (0 ≤ (-1 : Int)) := by
  constructor
  · decide
  · decide

/-- C1 (amended): for StatRow pairs sharing key set `K`, the differencer
produces a comparison with exactly the key list of the current row; each
key maps to the numeric coercions of the two inputs (non-numeric or
absent coerce to `0`); and the outputs are non-negative whenever every
numeric input is non-negative. -/
theorem diff_spec (current previous : StatRow)
    (hk : current.map Prod.fst = previous.map Prod.fst)
    (hc : ∀ e ∈ current, 0 ≤ toNumberOrZero (some e.2))
    (hp : ∀ e ∈ previous, 0 ≤ toNumberOrZero (some e.2)) :
    (diff current previous).map Prod.fst = current.map Prod.fst ∧
    (∀ k ∈ current.map Prod.fst,
      lookupKey k (diff current previous) =
        some { value := toNumberOrZero (lookupKey k current)
               prev := toNumberOrZero (lookupKey k previous) }) ∧
    (∀ e ∈ diff current previous, 0 ≤ e.2.value ∧ 0 ≤ e.2.prev) := by
  refine ⟨?_, ?_, ?_⟩
  · simp [diff]
  · intro k hkmem
    have h := lookupKey_map_mk
      (fun k' => ({ value := toNumberOrZero (lookupKey k' current)
                    prev := toNumberOrZero (lookupKey k' previous) } : StatComp))
      (current.map Prod.fst) k hkmem
    simpa [diff] using h
  · intro e he
    have nn : ∀ (row : StatRow), (∀ x ∈ row, 0 ≤ toNumberOrZero (some x.2)) →
        ∀ (k : String), 0 ≤ toNumberOrZero (lookupKey k row) := by
      intro row hrow k
      cases hl : lookupKey k row with
      | none => simp [toNumberOrZero]
      | some v =>
        obtain ⟨x, hx, _, hv⟩ := lookupKey_mem row k v hl
        subst hv
        exact hrow x hx
    simp only [diff, List.mem_map] at he
    obtain ⟨k, _, hek⟩ := he
    subst hek
    exact ⟨nn current hc k, nn previous hp k⟩

/-- C1 (witness): `diff_spec` applied to the concrete sharing pair
`current = { pageviews: 3 }`, `previous = { pageviews: "n/a" }`. -/
theorem diff_spec_witness :
    (diff [("pageviews", StatVal.num 3)] [("pageviews", StatVal.nonNumeric)]).map Prod.fst
        = ["pageviews"] ∧
    lookupKey "pageviews" (diff [("pageviews", StatVal.num 3)] [("pageviews", StatVal.nonNumeric)])
        = some { value := 3, prev := 0 } := by
  have h := diff_spec [("pageviews", StatVal.num 3)] [("pageviews", StatVal.nonNumeric)]
    (by decide) (by decide) (by decide)
  refine ⟨h.1, ?_⟩
  have h2 := h.2.1 "pageviews" (by decide)
  exact h2

/-! ## C2: the language normalizer -/

/-- The total count the `combined` object holds under key `k`. -/
def yAt (c : List DataPoint) (k : String) : Int :=
  ((c.filter fun q => q.x == k).map DataPoint.y).sum

theorem addPoint_keys (c : List DataPoint) (key : String) (y : Int) :
    (addPoint c key y).map DataPoint.x =
      if key ∈ c.map DataPoint.x then c.map DataPoint.x
      else c.map DataPoint.x ++ [key] := by
  induction c with
  | nil => simp [addPoint]
  | cons q qs ih =>
    by_cases hq : q.x = key
    · subst hq
      simp [addPoint]
    · have hne : ¬ key = q.x := fun h => hq h.symm
      simp only [addPoint, if_neg hq, List.map_cons, List.mem_cons, hne, false_or, ih]
      by_cases hm : key ∈ qs.map DataPoint.x <;> simp [hm]

theorem yAt_nil (k : String) : yAt [] k = 0 := rfl

theorem yAt_cons (q : DataPoint) (qs : List DataPoint) (k : String) :
    yAt (q :: qs) k = (if q.x = k then q.y else 0) + yAt qs k := by
  by_cases h : q.x = k <;> simp [yAt, List.filter_cons, h]

theorem addPoint_yAt (c : List DataPoint) (key : String) (y : Int) (k : String) :
    yAt (addPoint c key y) k = yAt c k + (if key = k then y else 0) := by
  induction c with
  | nil =>
    show yAt [{ x := key, y := y }] k = yAt [] k + (if key = k then y else 0)
    by_cases hk : key = k <;> simp [yAt_cons, yAt_nil, hk]
  | cons q qs ih =>
    by_cases hq : q.x = key
    · subst hq
      simp only [addPoint, eq_self_iff_true, if_true]
      rw [yAt_cons, yAt_cons]
      by_cases hk : q.x = k <;> simp only [hk, if_pos, if_neg, if_true, if_false] <;> omega
    · simp only [addPoint, if_neg hq]
      rw [yAt_cons, yAt_cons, ih]
      omega

theorem normAux_keys (data : List DataPoint) :
    ∀ acc : List DataPoint,
      ((data.foldl (fun c p => addPoint c (bucketKey p.x) p.y) acc).map DataPoint.x)
        = firstSeenFrom (acc.map DataPoint.x) (data.map fun p => bucketKey p.x) := by
  induction data with
  | nil => intro acc; simp [firstSeenFrom]
  | cons p ps ih =>
    intro acc
    simp only [List.foldl_cons, List.map_cons, firstSeenFrom]
    by_cases hm : bucketKey p.x ∈ acc.map DataPoint.x
    · rw [if_pos hm, ih]
      rw [addPoint_keys, if_pos hm]
    · rw [if_neg hm, ih]
      rw [addPoint_keys, if_neg hm]

theorem normAux_yAt (data : List DataPoint) :
    ∀ (acc : List DataPoint) (k : String),
      yAt (data.foldl (fun c p => addPoint c (bucketKey p.x) p.y) acc) k
        = yAt acc k + ((data.filter fun p => bucketKey p.x == k).map DataPoint.y).sum := by
  induction data with
  | nil => intro acc k; simp
  | cons p ps ih =>
    intro acc k
    simp only [List.foldl_cons, List.filter_cons]
    rw [ih, addPoint_yAt]
    by_cases hk : bucketKey p.x = k <;> simp only [hk, beq_self_eq_true, beq_iff_eq,
      if_pos, if_neg, if_true, if_false, decide_eq_true_eq, List.map_cons,
      List.sum_cons, not_false_eq_true] <;> omega

theorem yAt_eq_zero_of_not_mem (c : List DataPoint) (k : String)
    (h : k ∉ c.map DataPoint.x) : yAt c k = 0 := by
  induction c with
  | nil => simp [yAt]
  | cons q qs ih =>
    simp only [List.map_cons, List.mem_cons] at h
    push_neg at h
    have hq : ¬ q.x = k := fun hh => h.1 hh.symm
    simp only [yAt, List.filter_cons, beq_iff_eq, hq, decide_eq_true_eq, if_neg]
    exact ih h.2

theorem yAt_of_mem_nodup (c : List DataPoint) (p : DataPoint)
    (hnd : (c.map DataPoint.x).Nodup) (hp : p ∈ c) : yAt c p.x = p.y := by
  induction c with
  | nil => cases hp
  | cons q qs ih =>
    simp only [List.map_cons, List.nodup_cons] at hnd
    cases hp with
    | head =>
      simp only [yAt, List.filter_cons, beq_self_eq_true, if_pos, List.map_cons,
        List.sum_cons]
      have : yAt qs p.x = 0 := yAt_eq_zero_of_not_mem qs p.x hnd.1
      simp only [yAt] at this
      omega
    | tail _ hp' =>
      have hpx : p.x ∈ qs.map DataPoint.x := List.mem_map_of_mem DataPoint.x hp'
      have hq : ¬ q.x = p.x := fun hh => hnd.1 (hh ▸ hpx)
      simp only [yAt, List.filter_cons, beq_iff_eq, hq, decide_eq_true_eq, if_neg]
      exact ih hnd.2 hp'

theorem firstSeenFrom_nodup (ks : List String) :
    ∀ seen : List String, seen.Nodup → (firstSeenFrom seen ks).Nodup := by
  induction ks with
  | nil => intro seen h; simpa [firstSeenFrom] using h
  | cons k ks ih =>
    intro seen h
    simp only [firstSeenFrom]
    by_cases hm : k ∈ seen
    · rw [if_pos hm]; exact ih seen h
    · rw [if_neg hm]
      refine ih (seen ++ [k]) ?_
      simp [List.nodup_append, h, hm]

theorem firstSeenFrom_mem (ks : List String) :
    ∀ (seen : List String) (a : String), a ∈ firstSeenFrom seen ks → a ∈ seen ∨ a ∈ ks := by
  induction ks with
  | nil => intro seen a h; exact Or.inl (by simpa [firstSeenFrom] using h)
  | cons k ks ih =>
    intro seen a h
    simp only [firstSeenFrom] at h
    by_cases hm : k ∈ seen
    · rw [if_pos hm] at h
      rcases ih seen a h with h' | h'
      · exact Or.inl h'
      · exact Or.inr (List.mem_cons_of_mem _ h')
    · rw [if_neg hm] at h
      rcases ih (seen ++ [k]) a h with h' | h'
      · rcases List.mem_append.mp h' with h'' | h''
        · exact Or.inl h''
        · exact Or.inr (by simpa using Or.inl (List.mem_singleton.mp h''))
      · exact Or.inr (List.mem_cons_of_mem _ h')

/-- C2: for every input sequence, the normalizer emits one point per
distinct bucket key (`lowercase(x)` up to the first `-`) in first-seen
order, each carrying the sum of the contributing counts; in particular
`[{x:"en-US",y:3},{x:"en-GB",y:2},{x:"fr-FR",y:1}]` yields exactly
`[{x:"en",y:5},{x:"fr",y:1}]`, and the empty input yields the empty
output. -/
theorem normalizeLang_spec :
    (∀ data : List DataPoint,
      (normalizeLang data).map DataPoint.x = firstSeen (data.map fun p => bucketKey p.x) ∧
      ∀ p ∈ normalizeLang data,
        p.y = ((data.filter fun q => bucketKey q.x == p.x).map DataPoint.y).sum) ∧
    normalizeLang [⟨"en-US", 3⟩, ⟨"en-GB", 2⟩, ⟨"fr-FR", 1⟩] = [⟨"en", 5⟩, ⟨"fr", 1⟩] ∧
    normalizeLang [] = [] := by
  refine ⟨?_, by decide, rfl⟩
  intro data
  have hkeys : (normalizeLang data).map DataPoint.x
      = firstSeen (data.map fun p => bucketKey p.x) := by
    simpa [normalizeLang, firstSeen] using normAux_keys data []
  refine ⟨hkeys, ?_⟩
  intro p hp
  have hnd : ((normalizeLang data).map DataPoint.x).Nodup := by
    rw [hkeys]
    exact firstSeenFrom_nodup _ [] List.nodup_nil
  have h1 : yAt (normalizeLang data) p.x = p.y := yAt_of_mem_nodup _ p hnd hp
  have h2 : yAt (normalizeLang data) p.x
      = ((data.filter fun q => bucketKey q.x == p.x).map DataPoint.y).sum := by
    simpa [normalizeLang, yAt] using normAux_yAt data [] p.x
  rw [← h1, h2]

/-- C2 (witness): `normalizeLang_spec` instantiated on the example input,
extracting the per-bucket sum for the member `{x:"en",y:5}`. -/
theorem normalizeLang_spec_witness :
    (DataPoint.mk "en" 5 ∈ normalizeLang [⟨"en-US", 3⟩, ⟨"en-GB", 2⟩, ⟨"fr-FR", 1⟩]) ∧
    (DataPoint.mk "en" 5).y
      = ((([⟨"en-US", 3⟩, ⟨"en-GB", 2⟩, ⟨"fr-FR", 1⟩] : List DataPoint).filter
          fun q => bucketKey q.x == (DataPoint.mk "en" 5).x).map DataPoint.y).sum :=
  ⟨by decide, (normalizeLang_spec.1 _).2 ⟨"en", 5⟩ (by decide)⟩

/-! ## C3: the fetch boundary on query failure -/

/-- C3: when the current-period stats query rejects, the `.catch` maps the
rejection to the bad-request response object as the *value* of `metrics`,
and evaluation then throws a `TypeError` at `Object.keys(metrics[0])`
instead of ending the request with that bad-request response: the failure
does surface as an unhandled crash of the handler, not as the claimed
client-facing bad-request outcome. -/
theorem statsStep_queryFailure_typeError :
    statsStep (catchToBadRequest (Except.error ()))
        (catchToBadRequest (Except.ok [[("pageviews", StatVal.num 5)]]))
      = EvalOutcome.typeError := by
  decide

/-! ## C4: empty current-period row list -/

/-- C4: when the stats query resolves to zero rows, `metrics[0]` is
`undefined` and `Object.keys(metrics[0])` throws a `TypeError` — the
handler fails on the out-of-bounds first-row access instead of producing
the empty "no data" comparison the claim describes. -/
theorem statsStep_emptyRows_typeError :
    statsStep (FetchResult.rows []) (FetchResult.rows [[("pageviews", StatVal.num 1)]])
      = EvalOutcome.typeError := by
  decide

/-! ## C7: dispatch on unrecognized dimensions -/

/-- C7: a dimension in neither `SESSION_COLUMNS` nor `EVENT_COLUMNS` makes
`getMetricsData` return the empty sequence and issue no underlying query
call. -/
theorem getMetricsData_unrecognized (sessionCols eventCols : List String)
    (sessionData pageviewData : List DataPoint) (ty : String)
    (h1 : sessionCols.contains ty = false) (h2 : eventCols.contains ty = false) :
    getMetricsData sessionCols eventCols sessionData pageviewData ty = ([], []) := by
  have h1' : ty ∉ sessionCols := by simpa using h1
  have h2' : ty ∉ eventCols := by simpa using h2
  simp [getMetricsData, h1', h2']

/-- C7 (witness): `getMetricsData_unrecognized` on the concrete column
families and the unrecognized dimension `"bogus"`. -/
theorem getMetricsData_unrecognized_witness :
    getMetricsData ["os", "browser", "country", "region", "city", "device", "screen", "language"]
        ["url", "referrer", "title", "query", "event", "tag"]
        [⟨"a", 1⟩] [⟨"b", 2⟩] "bogus" = ([], []) :=
  getMetricsData_unrecognized _ _ _ _ "bogus" (by decide) (by decide)

/-! ## Formatter helper lemmas -/

theorem sourceFor_ty (tables : NameTables) (ty : String) (tbl : NameTable)
    (hsrc : sourceFor tables ty = some tbl) :
    ty = "os" ∨ ty = "browser" ∨ ty = "country" := by
  by_cases h1 : ty = "os"
  · exact Or.inl h1
  by_cases h2 : ty = "browser"
  · exact Or.inr (Or.inl h2)
  by_cases h3 : ty = "country"
  · exact Or.inr (Or.inr h3)
  exact absurd hsrc (by simp [sourceFor, h1, h2, h3])

theorem iconFor_template (ty s : String)
    (hty : ty = "os" ∨ ty = "browser" ∨ ty = "country") :
    iconFor ty s = "//umami.guole.fun/images/" ++ ty ++ "/" ++ s ++ ".png" := by
  rcases hty with rfl | rfl | rfl
  · rw [show ("//umami.guole.fun/images/" ++ "os" ++ "/")
        = "//umami.guole.fun/images/os/" from by decide]
    simp [iconFor]
  · rw [show ("//umami.guole.fun/images/" ++ "browser" ++ "/")
        = "//umami.guole.fun/images/browser/" from by decide]
    simp [iconFor]
  · rw [show ("//umami.guole.fun/images/" ++ "country" ++ "/")
        = "//umami.guole.fun/images/country/" from by decide]
    simp [iconFor]

theorem template_ne_empty (ty s : String) :
    "//umami.guole.fun/images/" ++ ty ++ "/" ++ s ++ ".png" ≠ "" := by
  intro h
  have h' := congrArg String.data h
  simp [String.data_append] at h'

theorem nameOr_eq_getD (tbl : NameTable) (x : String) (htbl : ∀ e ∈ tbl, e.2 ≠ "") :
    nameOr tbl x = (lookupKey x tbl).getD x := by
  cases hl : lookupKey x tbl with
  | none => simp [nameOr, hl]
  | some s =>
    obtain ⟨e, he, _, hv⟩ := lookupKey_mem tbl x s hl
    have hs : s ≠ "" := hv ▸ htbl e he
    simp [nameOr, hl, hs]

/-! ## C5: formatter length/sum preservation -/

/-- C5 (counterexample): for a dimension outside `{os, browser, country}`
the formatter returns the empty sequence, so it does *not* preserve the
sequence length (or the `y` sum) of a non-empty input: under `"device"`
the one-point input comes back empty. -/
theorem formattedData_device_counterexample :
    (formattedData { os := [], browser := [], country := [] } [⟨"a", 1⟩] "device").length
      ≠ ([⟨"a", 1⟩] : List DataPoint).length := by
  decide

/-- C5 (amended): for the three dimensions that select a name table the
formatter preserves order 1:1 (hence length) and the sum of the `y`
values; for every other dimension it returns the empty sequence. -/
theorem formattedData_preserving (tables : NameTables) (data : List DataPoint) (ty : String) :
    ((ty = "os" ∨ ty = "browser" ∨ ty = "country") →
      (formattedData tables data ty).map (fun it => (it.x, it.y))
          = data.map (fun p => (p.x, p.y)) ∧
      (formattedData tables data ty).length = data.length ∧
      ((formattedData tables data ty).map FormattedItem.y).sum
          = (data.map DataPoint.y).sum) ∧
    (ty ≠ "os" → ty ≠ "browser" → ty ≠ "country" → formattedData tables data ty = []) := by
  constructor
  · intro hty
    have hsrc : ∃ tbl, sourceFor tables ty = some tbl := by
      rcases hty with rfl | rfl | rfl
      · exact ⟨tables.os, by simp [sourceFor]⟩
      · exact ⟨tables.browser, by simp [sourceFor]⟩
      · exact ⟨tables.country, by simp [sourceFor]⟩
    obtain ⟨tbl, hsrc⟩ := hsrc
    have hpairs : (formattedData tables data ty).map (fun it => (it.x, it.y))
        = data.map (fun p => (p.x, p.y)) := by
      simp [formattedData, hsrc, List.map_map, Function.comp_def]
    refine ⟨hpairs, ?_, ?_⟩
    · have hlen := congrArg List.length hpairs
      simpa using hlen
    · have hsum := congrArg (fun l => (l.map Prod.snd).sum) hpairs
      simpa [List.map_map, Function.comp_def] using hsum
  · intro h1 h2 h3
    simp [formattedData, sourceFor, h1, h2, h3]

/-- C5 (witness): `formattedData_preserving` on a one-point input, for the
table dimension `"os"` and the tableless dimension `"language"`. -/
theorem formattedData_preserving_witness :
    ((formattedData { os := [("Windows", "Windows 10")], browser := [], country := [] }
        [⟨"Windows", 7⟩] "os").map (fun it => (it.x, it.y))
      = ([⟨"Windows", 7⟩] : List DataPoint).map (fun p => (p.x, p.y))) ∧
    formattedData { os := [("Windows", "Windows 10")], browser := [], country := [] }
        [⟨"Windows", 7⟩] "language" = [] :=
  ⟨((formattedData_preserving _ _ "os").1 (Or.inl rfl)).1,
   (formattedData_preserving _ _ "language").2 (by decide) (by decide) (by decide)⟩

/-! ## C6: formatter per-item contract -/

/-- C6: when a name table is selected, each input point maps 1:1 to an
item whose `name` is the table entry for the raw code when present and
the raw code itself otherwise, and whose `icon` is the dimension-specific
path template parameterized by the slug (lower-cased `x` with spaces
replaced by dashes). -/
theorem formattedData_item_spec (tables : NameTables) (data : List DataPoint) (ty : String)
    (tbl : NameTable) (hsrc : sourceFor tables ty = some tbl)
    (htbl : ∀ e ∈ tbl, e.2 ≠ "") :
    formattedData tables data ty = data.map fun p =>
      { name := (lookupKey p.x tbl).getD p.x
        icon := "//umami.guole.fun/images/" ++ ty ++ "/" ++ slug p.x ++ ".png"
        x := p.x
        y := p.y } := by
  have hty := sourceFor_ty tables ty tbl hsrc
  simp only [formattedData, hsrc]
  refine List.map_congr_left ?_
  intro p hp
  rw [nameOr_eq_getD tbl p.x htbl, iconFor_template _ _ hty]

/-- C6 (witness): `formattedData_item_spec` on `{x:"XX",y:4}` under
`"country"` with a table that has no `"XX"` entry: the point is kept with
`name = "XX"` and icon `.../country/xx.png`. -/
theorem formattedData_item_spec_witness :
    formattedData { os := [], browser := [], country := [("US", "United States")] }
        [⟨"XX", 4⟩] "country"
      = [{ name := "XX", icon := "//umami.guole.fun/images/country/xx.png",
           x := "XX", y := 4 }] := by
  rw [formattedData_item_spec _ _ _ [("US", "United States")] (by decide) (by decide)]
  decide

/-! ## C10: every emitted icon is the non-empty template path -/

/-- C10: whenever the formatter emits an item at all (so a table was
selected, i.e. the dimension is one of os/browser/country), the item's
icon is exactly the non-empty template
`//umami.guole.fun/images/<dimension>/<slug>.png`; the `device` and
empty-string branches of the icon switch never reach an emitted item. -/
theorem formattedData_icon_spec (tables : NameTables) (data : List DataPoint) (ty : String)
    (it : FormattedItem) (hmem : it ∈ formattedData tables data ty) :
    it.icon = "//umami.guole.fun/images/" ++ ty ++ "/" ++ slug it.x ++ ".png" ∧
    it.icon ≠ "" := by
  cases hsrc : sourceFor tables ty with
  | none =>
    rw [formattedData, hsrc] at hmem
    cases hmem
  | some tbl =>
    rw [formattedData, hsrc] at hmem
    obtain ⟨p, hp, rfl⟩ := List.mem_map.mp hmem
    have hty := sourceFor_ty tables ty tbl hsrc
    constructor
    · show iconFor ty (slug p.x) = _
      exact iconFor_template ty (slug p.x) hty
    · show iconFor ty (slug p.x) ≠ ""
      rw [iconFor_template ty (slug p.x) hty]
      exact template_ne_empty ty (slug p.x)

/-- C10 (witness): `formattedData_icon_spec` on the emitted item for
`{x:"XX",y:4}` under `"country"`. -/
theorem formattedData_icon_spec_witness :
    ({ name := "XX", icon := "//umami.guole.fun/images/country/xx.png", x := "XX", y := 4 }
        : FormattedItem).icon ≠ "" :=
  (formattedData_icon_spec { os := [], browser := [], country := [] } [⟨"XX", 4⟩] "country"
    _ (by decide)).2

/-! ## C8: normalizer idempotence -/

theorem toLower_toLower (c : Char) : c.toLower.toLower = c.toLower := by
  by_cases h : c.toNat ≥ 65 ∧ c.toNat ≤ 90
  · have h1 : c.toLower = Char.ofNat (c.toNat + 32) := by
      simp [Char.toLower, h]
    have hv : (c.toNat + 32).isValidChar := Or.inl (by omega)
    have ht : (Char.ofNat (c.toNat + 32)).toNat = c.toNat + 32 := by
      unfold Char.ofNat
      rw [dif_pos hv]
      rfl
    rw [h1]
    simp only [Char.toLower, ht]
    rw [if_neg (by omega)]
  · have h1 : c.toLower = c := by simp [Char.toLower, h]
    rw [h1, h1]

theorem bucketKey_fix (x : String) : bucketKey (bucketKey x) = bucketKey x := by
  unfold bucketKey
  congr 1
  have hfix : ∀ c ∈ (x.data.map Char.toLower).takeWhile (fun c => c != '-'),
      Char.toLower c = c := by
    intro c hc
    have hc' : c ∈ x.data.map Char.toLower := (List.takeWhile_sublist _).subset hc
    obtain ⟨c0, _, rfl⟩ := List.mem_map.mp hc'
    exact toLower_toLower c0
  have hmap : ((x.data.map Char.toLower).takeWhile (fun c => c != '-')).map Char.toLower
      = (x.data.map Char.toLower).takeWhile (fun c => c != '-') := by
    calc ((x.data.map Char.toLower).takeWhile (fun c => c != '-')).map Char.toLower
        = ((x.data.map Char.toLower).takeWhile (fun c => c != '-')).map id :=
          List.map_congr_left hfix
      _ = _ := List.map_id _
  rw [hmap]
  exact List.takeWhile_eq_self_iff.mpr fun c hc =>
    List.mem_takeWhile_imp (p := fun c => c != '-') hc

theorem normalizeLang_keys (data : List DataPoint) :
    (normalizeLang data).map DataPoint.x = firstSeen (data.map fun p => bucketKey p.x) := by
  simpa [normalizeLang, firstSeen] using normAux_keys data []

theorem normalizeLang_keys_nodup (data : List DataPoint) :
    ((normalizeLang data).map DataPoint.x).Nodup := by
  rw [normalizeLang_keys]
  exact firstSeenFrom_nodup _ [] List.nodup_nil

theorem normalizeLang_mem_fix (data : List DataPoint) :
    ∀ p ∈ normalizeLang data, bucketKey p.x = p.x := by
  intro p hp
  have hx : p.x ∈ (normalizeLang data).map DataPoint.x := List.mem_map_of_mem _ hp
  rw [normalizeLang_keys] at hx
  rcases firstSeenFrom_mem _ [] p.x hx with h | h
  · cases h
  · obtain ⟨q, _, hq⟩ := List.mem_map.mp h
    rw [← hq]
    exact bucketKey_fix q.x

theorem addPoint_of_not_mem (c : List DataPoint) (key : String) (y : Int)
    (h : key ∉ c.map DataPoint.x) : addPoint c key y = c ++ [{ x := key, y := y }] := by
  induction c with
  | nil => rfl
  | cons q qs ih =>
    simp only [List.map_cons, List.mem_cons] at h
    push_neg at h
    have hq : ¬ q.x = key := fun hh => h.1 hh.symm
    simp only [addPoint, if_neg hq, List.cons_append]
    rw [ih h.2]

theorem normAux_fixed (c : List DataPoint) :
    ∀ acc : List DataPoint,
      (∀ p ∈ c, bucketKey p.x = p.x) → ((acc ++ c).map DataPoint.x).Nodup →
      c.foldl (fun c' p => addPoint c' (bucketKey p.x) p.y) acc = acc ++ c := by
  induction c with
  | nil => intro acc _ _; simp
  | cons p ps ih =>
    intro acc hfix hnd
    simp only [List.foldl_cons]
    have hpfix : bucketKey p.x = p.x := hfix p (List.mem_cons_self _ _)
    have hpnot : p.x ∉ acc.map DataPoint.x := by
      intro hmem
      rw [List.map_append, List.nodup_append] at hnd
      exact hnd.2.2 hmem (by simp)
    rw [hpfix, addPoint_of_not_mem acc p.x p.y hpnot]
    rw [show ({ x := p.x, y := p.y } : DataPoint) = p from rfl]
    rw [ih (acc ++ [p]) (fun q hq => hfix q (List.mem_cons_of_mem _ hq)) (by simpa using hnd)]
    simp

/-- C8: the normalizer is idempotent on inputs whose `x` values carry no
`-` separator (it is in fact idempotent on all inputs: its output keys
are bucket keys, which are fixed points of the bucketing, distinct, and
re-folded in place in their original order). -/
theorem normalizeLang_idempotent_nodash (data : List DataPoint)
    (h : ∀ p ∈ data, p.x.data.contains '-' = false) :
    normalizeLang (normalizeLang data) = normalizeLang data := by
  have h2 : (([] ++ normalizeLang data).map DataPoint.x).Nodup := by
    simpa using normalizeLang_keys_nodup data
  have h3 := normAux_fixed (normalizeLang data) [] (normalizeLang_mem_fix data) h2
  simpa [normalizeLang] using h3

/-- C8 (witness): `normalizeLang_idempotent_nodash` on a concrete
dash-free input (with a case-folding collision). -/
theorem normalizeLang_idempotent_nodash_witness :
    normalizeLang (normalizeLang [⟨"en", 2⟩, ⟨"EN", 1⟩, ⟨"fr", 4⟩])
      = normalizeLang [⟨"en", 2⟩, ⟨"EN", 1⟩, ⟨"fr", 4⟩] :=
  normalizeLang_idempotent_nodash _ (by decide)

/-! ## C9: the filter builder -/

theorem lookupKey_eq_none {α : Type} (m : List (String × α)) (k : String) :
    lookupKey k m = none ↔ k ∉ m.map Prod.fst := by
  induction m with
  | nil => simp [lookupKey]
  | cons e es ih =>
    by_cases he : e.1 = k
    · simp [lookupKey, he]
    · have hne : ¬ k = e.1 := fun hh => he hh.symm
      simp [lookupKey, he, hne, ih]

theorem lookup_setEntry_self (m : List (String × FilterDef)) (k : String) (v : FilterDef) :
    lookupKey k (setEntry m k v) = some v := by
  induction m with
  | nil => simp [setEntry, lookupKey]
  | cons e es ih =>
    by_cases he : e.1 = k
    · simp [setEntry, he, lookupKey]
    · simp [setEntry, he, lookupKey, ih]

theorem lookup_setEntry_other (m : List (String × FilterDef)) (k k' : String) (v : FilterDef)
    (h : k' ≠ k) : lookupKey k' (setEntry m k v) = lookupKey k' m := by
  have hkk : ¬ k = k' := fun hh => h hh.symm
  induction m with
  | nil => simp [setEntry, lookupKey, hkk]
  | cons e es ih =>
    by_cases he : e.1 = k
    · have he' : ¬ e.1 = k' := by rw [he]; exact hkk
      simp [setEntry, he, lookupKey, hkk, he']
    · simp [setEntry, he, lookupKey, ih]

theorem setEntry_keys (m : List (String × FilterDef)) (k : String) (v : FilterDef) :
    (setEntry m k v).map Prod.fst =
      if k ∈ m.map Prod.fst then m.map Prod.fst else m.map Prod.fst ++ [k] := by
  induction m with
  | nil => simp [setEntry]
  | cons e es ih =>
    by_cases he : e.1 = k
    · subst he
      simp [setEntry]
    · have hne : ¬ k = e.1 := fun hh => he hh.symm
      simp only [setEntry, if_neg he, List.map_cons, List.mem_cons, hne, false_or, ih]
      by_cases hm : k ∈ es.map Prod.fst <;> simp [hm]

theorem setEntry_keys_nodup (m : List (String × FilterDef)) (k : String) (v : FilterDef)
    (h : (m.map Prod.fst).Nodup) : ((setEntry m k v).map Prod.fst).Nodup := by
  rw [setEntry_keys]
  by_cases hm : k ∈ m.map Prod.fst
  · rw [if_pos hm]; exact h
  · rw [if_neg hm]
    simp [List.nodup_append, h, hm]

/-- C9: the breakdown filter set keeps at most one entry per dimension
name (its key list stays duplicate-free); with a search term supplied,
the entry under the requested dimension is exactly the synthetic
contains-filter (whose column falls back to the dimension name when
`FILTER_COLUMNS` has no mapping) while every other dimension's entry is
untouched; the primary filter set used for the stats queries is the
request filters unchanged, with no search filter; and without a search
term both sets are the request filters unchanged. -/
theorem buildPlan_spec (base : List (String × FilterDef))
    (filterColumns : List (String × String)) (ty s : String)
    (hnd : (base.map Prod.fst).Nodup) (hs : s ≠ "") :
    ((buildPlan base filterColumns ty (some s)).breakdown.map Prod.fst).Nodup ∧
    lookupKey ty (buildPlan base filterColumns ty (some s)).breakdown
        = some (searchFilter filterColumns ty s) ∧
    (∀ k, k ≠ ty →
      lookupKey k (buildPlan base filterColumns ty (some s)).breakdown = lookupKey k base) ∧
    (buildPlan base filterColumns ty (some s)).primary = base ∧
    (lookupKey ty filterColumns = none → (searchFilter filterColumns ty s).column = ty) ∧
    buildPlan base filterColumns ty none = { primary := base, breakdown := base } := by
  refine ⟨?_, ?_, ?_, rfl, ?_, rfl⟩
  · simp only [buildPlan, buildFiltersSearch, if_neg hs]
    exact setEntry_keys_nodup base ty _ hnd
  · simp only [buildPlan, buildFiltersSearch, if_neg hs]
    exact lookup_setEntry_self base ty _
  · intro k hk
    simp only [buildPlan, buildFiltersSearch, if_neg hs]
    exact lookup_setEntry_other base ty k _ hk
  · intro hcol
    simp [searchFilter, resolvedColumn, hcol]

/-- C9 (witness): `buildPlan_spec` on a concrete request: one pass-through
filter on `url`, a search on the `query` dimension mapped to the physical
column `url_query`. -/
theorem buildPlan_spec_witness :
    lookupKey "query"
        (buildPlan [("url", { name := "url", column := "url", operator := "eq", value := "/a" })]
          [("query", "url_query")] "query" (some "foo")).breakdown
      = some (searchFilter [("query", "url_query")] "query" "foo") ∧
    lookupKey "url"
        (buildPlan [("url", { name := "url", column := "url", operator := "eq", value := "/a" })]
          [("query", "url_query")] "query" (some "foo")).breakdown
      = lookupKey "url"
          [("url", { name := "url", column := "url", operator := "eq", value := "/a" })] ∧
    (buildPlan [("url", { name := "url", column := "url", operator := "eq", value := "/a" })]
          [("query", "url_query")] "query" (some "foo")).primary
      = [("url", { name := "url", column := "url", operator := "eq", value := "/a" })] := by
  have h := buildPlan_spec
    [("url", { name := "url", column := "url", operator := "eq", value := "/a" })]
    [("query", "url_query")] "query" "foo" (by decide) (by decide)
  exact ⟨h.2.1, h.2.2.1 "url" (by decide), h.2.2.2.1⟩

end Umami
